import Mathlib

/-!
# Gather & Grow — verification of the membership / seat-accounting core

A shallow embedding of the backend's membership lifecycle
(`apps/gatherings/models.py`, `apps/gatherings/services/member_service.py`,
`apps/gatherings/services/gathering_service.py`), of the central
exception-to-response mapping (`apps/common/responses.py`), of the question
update/delete handlers (`apps/communitys/...`) and of the chat WebSocket
consumer (`apps/chat/consumers.py`).

Conventions of the embedding:
* Database tables are lists of rows; primary keys are `Nat`.
* Django's `IntegerField` values are `Int` (Python integers are unbounded).
* `Model.objects.get(...)`/`filter(...)` become `List.find?`/`List.filter`
  over the row lists; a row `UPDATE` maps every row carrying the updated
  primary key; a `DELETE` filters it out.
* A service raising `ValueError` becomes `Except.error`; `transaction.atomic`
  means an error leaves the database unchanged (`applyOp` keeps the old
  state on `Except.error`).
* Fields that no verified property mentions (titles, dates, locations, …)
  are elided from the row structures.
-/

namespace GatherGrow

/-- `Gathering.GatheringStatus` (models.py). -/
inductive GatheringStatus
  | recruiting
  | recruitment_complete
  | in_progress
  | finished
deriving DecidableEq, Repr

/-- `GatheringMember.MemberRole` (models.py). -/
inductive MemberRole
  | leader
  | participant
deriving DecidableEq, Repr

/-- `GatheringMember.MemberStatus` (models.py). -/
inductive MemberStatus
  | pending
  | approved
  | rejected
deriving DecidableEq, Repr

/-- Row of the `gatherings` table (class `Gathering` in models.py);
`userId` is the `user` foreign key (the owner / 작성자). -/
structure Gathering where
  id : Nat
  userId : Nat
  maxMembers : Int
  currentMembers : Int := 1
  status : GatheringStatus := .recruiting
deriving DecidableEq, Repr

/-- `Gathering.is_recruiting` property. -/
def Gathering.is_recruiting (g : Gathering) : Bool :=
  g.status == .recruiting

/-- `Gathering.is_full` property: `current_members >= max_members`. -/
def Gathering.is_full (g : Gathering) : Bool :=
  decide (g.maxMembers ≤ g.currentMembers)

/-- `Gathering.increment_members`: add one seat taken, and flip the status
to `recruitment_complete` once full. -/
def Gathering.increment_members (g : Gathering) : Gathering :=
  let g := { g with currentMembers := g.currentMembers + 1 }
  if g.is_full then { g with status := .recruitment_complete } else g

/-- `Gathering.decrement_members`: only acts when `current_members > 0`;
drops one seat and flips `recruitment_complete` back to `recruiting`. -/
def Gathering.decrement_members (g : Gathering) : Gathering :=
  if 0 < g.currentMembers then
    let g := { g with currentMembers := g.currentMembers - 1 }
    if g.status == .recruitment_complete then { g with status := .recruiting } else g
  else g

/-- Row of the `gathering_members` table (class `GatheringMember`). -/
structure GatheringMember where
  id : Nat
  userId : Nat
  gatheringId : Nat
  role : MemberRole := .participant
  status : MemberStatus := .pending
  isActive : Bool := true
deriving DecidableEq, Repr

/-- `GatheringMember.is_leader` property. -/
def GatheringMember.is_leader (m : GatheringMember) : Bool :=
  m.role == .leader

/-- `GatheringMember.is_approved` property. -/
def GatheringMember.is_approved (m : GatheringMember) : Bool :=
  m.status == .approved

/-- `GatheringMember.approve`: pending member becomes approved and the
gathering's counter is incremented (models.py lines 275-280). -/
def GatheringMember.approve (m : GatheringMember) (g : Gathering) :
    GatheringMember × Gathering :=
  if m.status == .pending then
    ({ m with status := .approved }, g.increment_members)
  else (m, g)

/-- `GatheringMember.reject`: pending member becomes rejected, no counter
change. -/
def GatheringMember.reject (m : GatheringMember) : GatheringMember :=
  if m.status == .pending then { m with status := .rejected } else m

/-- `GatheringMember.leave`: approved member becomes inactive and the
gathering's counter is decremented (models.py lines 288-293). -/
def GatheringMember.leave (m : GatheringMember) (g : Gathering) :
    GatheringMember × Gathering :=
  if m.is_approved then
    ({ m with isActive := false }, g.decrement_members)
  else (m, g)

/-- The relevant database state: the `gatherings` and `gathering_members`
tables, plus the auto-increment primary-key counters. -/
structure DB where
  gatherings : List Gathering := []
  members : List GatheringMember := []
  nextGatheringId : Nat := 1
  nextMemberId : Nat := 1
deriving DecidableEq, Repr

/-- Generic row `UPDATE`: replace every row whose key matches `a`'s key. -/
def setBy {α : Type} (key : α → Nat) (l : List α) (a : α) : List α :=
  l.map fun x => if key x == key a then a else x

/-- `Gathering.objects.get(id=gid)`. -/
def DB.findGathering (db : DB) (gid : Nat) : Option Gathering :=
  db.gatherings.find? fun g => g.id == gid

/-- `GatheringMember.objects.get(id=mid)`. -/
def DB.findMemberById (db : DB) (mid : Nat) : Option GatheringMember :=
  db.members.find? fun m => m.id == mid

/-- `gathering.save()`: write back a gathering row by primary key. -/
def DB.setGathering (db : DB) (g : Gathering) : DB :=
  { db with gatherings := setBy Gathering.id db.gatherings g }

/-- `member.save()`: write back a member row by primary key. -/
def DB.setMember (db : DB) (m : GatheringMember) : DB :=
  { db with members := setBy GatheringMember.id db.members m }

/-- `member.delete()`: remove the member row with the given primary key. -/
def DB.eraseMember (db : DB) (mid : Nat) : DB :=
  { db with members := db.members.filter fun x => !(x.id == mid) }

/-- The `IntegrityError` the database raises when the
`unique_together = [["user", "gathering"]]` constraint on
`gathering_members` (models.py line 254) is violated. -/
def integrityErrorMsg : String :=
  "UNIQUE constraint failed: gathering_members.user_id, gathering_members.gathering_id"

/-- `MemberService.join_gathering` (member_service.py lines 57-103):
duplicate-membership, owner, recruiting and capacity checks in source
order, then `GatheringMember.objects.create` of a pending participant
row. The INSERT is subject to the `unique_together (user, gathering)`
constraint: when any row for the pair exists — also an inactive one,
which the service's `is_active=True` duplicate check does not see —
the create raises `IntegrityError` (not `ValueError`) inside the
atomic transaction and no row is stored. -/
def join_gathering (db : DB) (userId gatheringId : Nat) :
    Except String (DB × GatheringMember) :=
  match db.findGathering gatheringId with
  | none => .error "존재하지 않는 모임입니다."
  | some gathering =>
    if db.members.any fun m =>
        m.userId == userId && m.gatheringId == gathering.id && m.isActive then
      .error "이미 가입된 모임입니다."
    else if gathering.userId == userId then
      .error "자신이 만든 모임에는 가입 신청할 수 없습니다."
    else if !gathering.is_recruiting then
      .error "현재 모집 중이 아닙니다."
    else if gathering.is_full then
      .error "모집 정원이 마감되었습니다."
    else if db.members.any fun m =>
        m.userId == userId && m.gatheringId == gathering.id then
      .error integrityErrorMsg
    else
      let member : GatheringMember :=
        { id := db.nextMemberId, userId := userId, gatheringId := gathering.id,
          role := .participant, status := .pending, isActive := true }
      .ok ({ db with members := member :: db.members,
                     nextMemberId := db.nextMemberId + 1 }, member)

/-- `MemberService.approve_member` (member_service.py lines 105-142).
The `select_related("gathering")` join is modelled as a lookup of the
member's gathering; the foreign key makes the `none` case unreachable on
well-formed states and it is mapped to an error. -/
def approve_member (db : DB) (memberId userId : Nat) :
    Except String (DB × GatheringMember) :=
  match db.findMemberById memberId with
  | none => .error "존재하지 않는 멤버입니다."
  | some member =>
    match db.findGathering member.gatheringId with
    | none => .error "존재하지 않는 멤버입니다."
    | some gathering =>
      if !(gathering.userId == userId) then
        .error "모임장만 멤버를 승인할 수 있습니다."
      else if !(member.status == .pending) then
        .error "대기 중인 멤버만 승인할 수 있습니다."
      else if gathering.is_full then
        .error "모집 정원이 마감되어 승인할 수 없습니다."
      else
        let p := member.approve gathering
        .ok ((db.setMember p.1).setGathering p.2, p.1)

/-- `MemberService.reject_member` (member_service.py lines 144-177). -/
def reject_member (db : DB) (memberId userId : Nat) :
    Except String (DB × GatheringMember) :=
  match db.findMemberById memberId with
  | none => .error "존재하지 않는 멤버입니다."
  | some member =>
    match db.findGathering member.gatheringId with
    | none => .error "존재하지 않는 멤버입니다."
    | some gathering =>
      if !(gathering.userId == userId) then
        .error "모임장만 멤버를 거절할 수 있습니다."
      else if !(member.status == .pending) then
        .error "대기 중인 멤버만 거절할 수 있습니다."
      else
        .ok (db.setMember member.reject, member.reject)

/-- `MemberService.leave_gathering` (member_service.py lines 179-216):
lookup of the requester's active row, leader and approval checks, then
`member.leave()`. -/
def leave_gathering (db : DB) (userId gatheringId : Nat) :
    Except String (DB × Bool) :=
  match db.members.find? fun m =>
      m.userId == userId && m.gatheringId == gatheringId && m.isActive with
  | none => .error "가입되지 않은 모임이거나 이미 탈퇴한 상태입니다."
  | some member =>
    match db.findGathering member.gatheringId with
    | none => .error "가입되지 않은 모임이거나 이미 탈퇴한 상태입니다."
    | some gathering =>
      if member.is_leader then
        .error "모임장은 탈퇴할 수 없습니다. 모임을 삭제하거나 다른 멤버에게 모임장을 위임해주세요."
      else if !member.is_approved then
        .error "승인되지 않은 멤버는 탈퇴할 수 없습니다. 가입 신청 취소를 이용해주세요."
      else
        let p := member.leave gathering
        .ok ((db.setMember p.1).setGathering p.2, true)

/-- `MemberService.cancel_join_request` (member_service.py lines 218-248):
delete the requester's pending active row. -/
def cancel_join_request (db : DB) (userId gatheringId : Nat) :
    Except String (DB × Bool) :=
  match db.members.find? fun m =>
      m.userId == userId && m.gatheringId == gatheringId &&
        m.status == MemberStatus.pending && m.isActive with
  | none => .error "대기 중인 가입 신청이 없습니다."
  | some member => .ok (db.eraseMember member.id, true)

/-- `MemberService.remove_member` (member_service.py lines 250-291):
owner check on the gathering, lookup of the target active row, leader
check, then `member.leave()` for approved members and a row delete for
pending/rejected ones. -/
def remove_member (db : DB) (gatheringId memberId userId : Nat) :
    Except String (DB × Bool) :=
  match db.findGathering gatheringId with
  | none => .error "존재하지 않는 모임입니다."
  | some gathering =>
    if !(gathering.userId == userId) then
      .error "모임장만 멤버를 강제 탈퇴시킬 수 있습니다."
    else
      match db.members.find? fun m =>
          m.id == memberId && m.gatheringId == gathering.id && m.isActive with
      | none => .error "존재하지 않는 멤버입니다."
      | some member =>
        if member.is_leader then
          .error "모임장은 강제 탈퇴할 수 없습니다."
        else if member.is_approved then
          let p := member.leave gathering
          .ok ((db.setMember p.1).setGathering p.2, true)
        else
          .ok (db.eraseMember member.id, true)

/-- `GatheringService.create_gathering` (gathering_service.py lines 84-113):
creates a gathering (`current_members` has model default 1 and `status`
defaults to `recruiting`; both are read-only in the create serializer)
and an approved, active leader row for the owner. -/
def create_gathering (db : DB) (userId : Nat) (maxMembers : Int) :
    DB × Gathering :=
  let gathering : Gathering :=
    { id := db.nextGatheringId, userId := userId, maxMembers := maxMembers,
      currentMembers := 1, status := .recruiting }
  let leader : GatheringMember :=
    { id := db.nextMemberId, userId := userId, gatheringId := gathering.id,
      role := .leader, status := .approved, isActive := true }
  ({ db with gatherings := gathering :: db.gatherings,
             members := leader :: db.members,
             nextGatheringId := db.nextGatheringId + 1,
             nextMemberId := db.nextMemberId + 1 }, gathering)

/-- `GatheringService.delete_gathering` (gathering_service.py lines
159-207): owner check, status check, member-count check, then the delete
(the `on_delete=CASCADE` foreign key also removes the member rows). -/
def delete_gathering (db : DB) (gatheringId userId : Nat) :
    Except String (DB × Bool) :=
  match db.findGathering gatheringId with
  | none => .error "존재하지 않는 모임입니다."
  | some gathering =>
    if !(gathering.userId == userId) then
      .error "모임장만 모임을 삭제할 수 있습니다."
    else if gathering.status == .in_progress || gathering.status == .finished then
      .error "진행 중이거나 종료된 모임은 삭제할 수 없습니다."
    else if 1 < gathering.currentMembers then
      .error "참여 인원이 있는 모임은 삭제할 수 없습니다. 먼저 멤버를 삭제해주세요."
    else
      .ok ({ db with
              gatherings := db.gatherings.filter fun g => !(g.id == gathering.id),
              members := db.members.filter fun m => !(m.gatheringId == gathering.id) },
           true)

/-- The membership operations named by the seat-count invariant. -/
inductive MembershipOp
  | create (userId : Nat) (maxMembers : Int)
  | join (userId gatheringId : Nat)
  | approve (memberId userId : Nat)
  | reject (memberId userId : Nat)
  | leave (userId gatheringId : Nat)
  | cancel (userId gatheringId : Nat)
  | remove (gatheringId memberId userId : Nat)
deriving DecidableEq, Repr

/-- Run one membership operation; `transaction.atomic` makes a failing
operation leave the database untouched. -/
def applyOp (db : DB) : MembershipOp → DB
  | .create u mx => (create_gathering db u mx).1
  | .join u gid =>
    match join_gathering db u gid with
    | .ok p => p.1
    | .error _ => db
  | .approve mid u =>
    match approve_member db mid u with
    | .ok p => p.1
    | .error _ => db
  | .reject mid u =>
    match reject_member db mid u with
    | .ok p => p.1
    | .error _ => db
  | .leave u gid =>
    match leave_gathering db u gid with
    | .ok p => p.1
    | .error _ => db
  | .cancel u gid =>
    match cancel_join_request db u gid with
    | .ok p => p.1
    | .error _ => db
  | .remove gid mid u =>
    match remove_member db gid mid u with
    | .ok p => p.1
    | .error _ => db

/-- Number of member rows of gathering `gid` with `status=approved` and
`is_active=True` — the aggregate the seat counter must track. -/
def approvedActiveCount (ms : List GatheringMember) (gid : Nat) : Int :=
  (ms.countP fun m =>
    m.gatheringId == gid && m.status == MemberStatus.approved && m.isActive : Nat)

/-- Structural well-formedness of a database state: primary keys are
unique and below the auto-increment counters, member rows reference
already-allocated gathering ids, and an inactive member is always an
approved one (rows are created active and only `leave` — which requires
`approved` — ever clears the flag). -/
def DB.WF (db : DB) : Prop :=
  (db.gatherings.map Gathering.id).Nodup ∧
  (db.members.map GatheringMember.id).Nodup ∧
  (∀ g ∈ db.gatherings, g.id < db.nextGatheringId) ∧
  (∀ m ∈ db.members, m.id < db.nextMemberId) ∧
  (∀ m ∈ db.members, m.gatheringId < db.nextGatheringId) ∧
  (∀ m ∈ db.members, m.isActive = false → m.status = MemberStatus.approved)

/-- The seat-count invariant of the spec:
`current_members == |{m : m.status=approved ∧ m.is_active}|`. -/
def DB.SeatInv (db : DB) : Prop :=
  ∀ g ∈ db.gatherings, g.currentMembers = approvedActiveCount db.members g.id

/-- Full invariant carried through every membership operation. -/
def DB.Inv (db : DB) : Prop := db.WF ∧ db.SeatInv

instance : DecidablePred DB.WF := fun db => by
  unfold DB.WF; infer_instance

instance : DecidablePred DB.SeatInv := fun db => by
  unfold DB.SeatInv; infer_instance

instance : DecidablePred DB.Inv := fun db => by
  unfold DB.Inv; infer_instance

/-- The row predicate counted by `approvedActiveCount`. -/
def seatPred (gid : Nat) (m : GatheringMember) : Bool :=
  m.gatheringId == gid && m.status == MemberStatus.approved && m.isActive

theorem approvedActiveCount_eq (ms : List GatheringMember) (gid : Nat) :
    approvedActiveCount ms gid = (ms.countP (seatPred gid) : Nat) := rfl

theorem setBy_cons {α : Type} (key : α → Nat) (x : α) (t : List α) (a : α) :
    setBy key (x :: t) a = (if key x == key a then a else x) :: setBy key t a := rfl

theorem setBy_map_key {α : Type} (key : α → Nat) (l : List α) (a : α) :
    (setBy key l a).map key = l.map key := by
  unfold setBy
  rw [List.map_map]
  apply List.map_congr_left
  intro x _
  simp only [Function.comp_apply]
  split
  · next h => exact (beq_iff_eq.mp h).symm
  · rfl

theorem mem_setBy {α : Type} {key : α → Nat} {l : List α} {a x : α}
    (h : x ∈ setBy key l a) : x = a ∨ (x ∈ l ∧ key x ≠ key a) := by
  unfold setBy at h
  rcases List.mem_map.mp h with ⟨y, hy, hxy⟩
  by_cases hk : (key y == key a) = true
  · rw [if_pos hk] at hxy
    exact Or.inl hxy.symm
  · rw [if_neg hk] at hxy
    subst hxy
    exact Or.inr ⟨hy, fun hcon => hk (beq_iff_eq.mpr hcon)⟩

theorem setBy_eq_of_forall_ne {α : Type} {key : α → Nat} {l : List α} {a : α}
    (h : ∀ x ∈ l, key x ≠ key a) : setBy key l a = l := by
  induction l with
  | nil => rfl
  | cons x t ih =>
    rw [setBy_cons, if_neg, ih fun y hy => h y (List.mem_cons_of_mem x hy)]
    simp only [beq_iff_eq]
    exact h x (List.mem_cons_self x t)

theorem find?_setBy {α : Type} {key : α → Nat} {l : List α} {a b : α} {i : Nat}
    (hfind : l.find? (fun x => key x == i) = some b) (hk : key a = key b) :
    (setBy key l a).find? (fun x => key x == i) = some a := by
  induction l with
  | nil => simp at hfind
  | cons x t ih =>
    rw [setBy_cons]
    by_cases hx : (key x == i) = true
    · have hxb : x = b := by
        rw [List.find?_cons_of_pos t hx] at hfind
        exact Option.some.inj hfind
      have hxa : (key x == key a) = true := by
        rw [beq_iff_eq, hk, hxb]
      rw [if_pos hxa]
      refine List.find?_cons_of_pos _ ?_
      have h2 : key x = i := beq_iff_eq.mp hx
      rw [beq_iff_eq, hk, ← hxb, h2]
    · rw [List.find?_cons_of_neg t hx] at hfind
      have hbi0 := List.find?_some hfind
      have hbi : key b = i := beq_iff_eq.mp hbi0
      have hxa : ¬((key x == key a) = true) := by
        intro hcon
        apply hx
        rw [beq_iff_eq] at hcon ⊢
        rw [hcon, hk]
        exact hbi
      rw [if_neg hxa]
      have hstep : List.find? (fun y => key y == i) (x :: setBy key t a)
          = List.find? (fun y => key y == i) (setBy key t a) :=
        List.find?_cons_of_neg _ hx
      rw [hstep]
      exact ih hfind

theorem countP_setBy {α : Type} {key : α → Nat} (p : α → Bool) {l : List α}
    {a b : α} (hpw : l.Pairwise fun x y => key x ≠ key y) (hmem : b ∈ l)
    (hk : key a = key b) :
    (setBy key l a).countP p + (if p b then 1 else 0)
      = l.countP p + (if p a then 1 else 0) := by
  induction l with
  | nil => cases hmem
  | cons x t ih =>
    rcases List.pairwise_cons.mp hpw with ⟨hx, ht⟩
    rw [setBy_cons]
    rcases List.mem_cons.mp hmem with hb | hb
    · subst hb
      have hxa : (key b == key a) = true := by rw [beq_iff_eq, hk]
      rw [if_pos hxa]
      have hrest : setBy key t a = t :=
        setBy_eq_of_forall_ne fun y hy => by
          rw [hk]
          exact (hx y hy).symm
      rw [hrest, List.countP_cons, List.countP_cons]
      omega
    · have hxb : key x ≠ key b := hx b hb
      have hxa : ¬((key x == key a) = true) := by
        rw [beq_iff_eq, hk]
        exact hxb
      rw [if_neg hxa]
      rw [List.countP_cons, List.countP_cons]
      have := ih ht hb
      omega

theorem countP_eraseBy {α : Type} {key : α → Nat} (p : α → Bool) {l : List α}
    {b : α} (hpw : l.Pairwise fun x y => key x ≠ key y) (hmem : b ∈ l) :
    (l.filter fun x => !(key x == key b)).countP p + (if p b then 1 else 0)
      = l.countP p := by
  induction l with
  | nil => cases hmem
  | cons x t ih =>
    rcases List.pairwise_cons.mp hpw with ⟨hx, ht⟩
    rcases List.mem_cons.mp hmem with hb | hb
    · subst hb
      have hcond : (!(key b == key b)) = false := by simp
      rw [List.filter_cons, hcond]
      simp only [Bool.false_eq_true, if_false]
      have hrest : (t.filter fun x => !(key x == key b)) = t :=
        List.filter_eq_self.mpr fun y hy => by
          rw [Bool.not_eq_true', beq_eq_false_iff_ne]
          exact Ne.symm (hx y hy)
      rw [hrest, List.countP_cons]
    · have hcond : (!(key x == key b)) = true := by
        rw [Bool.not_eq_true', beq_eq_false_iff_ne]
        exact hx b hb
      rw [List.filter_cons, hcond]
      simp only [if_true]
      rw [List.countP_cons, List.countP_cons]
      have := ih ht hb
      omega

theorem seatPred_false_of_ne_gid {gid : Nat} {m : GatheringMember}
    (h : m.gatheringId ≠ gid) : seatPred gid m = false := by
  unfold seatPred
  rw [beq_eq_false_iff_ne.mpr h]
  simp

theorem seatPred_false_of_not_approved {gid : Nat} {m : GatheringMember}
    (h : m.status ≠ .approved) : seatPred gid m = false := by
  unfold seatPred
  rw [beq_eq_false_iff_ne.mpr h]
  simp

theorem seatPred_false_of_inactive {gid : Nat} {m : GatheringMember}
    (h : m.isActive = false) : seatPred gid m = false := by
  unfold seatPred
  rw [h]
  simp

theorem seatPred_true_iff {gid : Nat} {m : GatheringMember} :
    seatPred gid m = true ↔
      m.gatheringId = gid ∧ m.status = .approved ∧ m.isActive = true := by
  unfold seatPred
  simp [Bool.and_assoc]

/-- Updating one member row and one gathering row preserves the invariant
provided the gathering's counter absorbs exactly the change the member
row makes to its approved-active count. -/
theorem Inv_set_member_gathering (db : DB) (m m' : GatheringMember)
    (g g' : Gathering) (hInv : db.Inv)
    (hm : m ∈ db.members) (hg : g ∈ db.gatherings)
    (hid : m'.id = m.id) (hgid : g'.id = g.id)
    (hmg : m.gatheringId = g.id) (hmg' : m'.gatheringId = g.id)
    (hact' : m'.isActive = false → m'.status = MemberStatus.approved)
    (hcur : g'.currentMembers + (if seatPred g.id m then (1 : Int) else 0)
            = g.currentMembers + (if seatPred g.id m' then (1 : Int) else 0)) :
    ((db.setMember m').setGathering g').Inv := by
  obtain ⟨⟨hgnd, hmnd, hgfresh, hmfresh, hmgfresh, hinact⟩, hseat⟩ := hInv
  have hmpw : db.members.Pairwise fun x y => x.id ≠ y.id :=
    List.pairwise_map.mp hmnd
  simp only [DB.Inv, DB.WF, DB.SeatInv, DB.setGathering, DB.setMember]
  refine ⟨⟨?_, ?_, ?_, ?_, ?_, ?_⟩, ?_⟩
  · rw [setBy_map_key]; exact hgnd
  · rw [setBy_map_key]; exact hmnd
  · intro g2 hg2
    rcases mem_setBy hg2 with rfl | ⟨hg2, _⟩
    · rw [hgid]; exact hgfresh g hg
    · exact hgfresh g2 hg2
  · intro m2 hm2
    rcases mem_setBy hm2 with rfl | ⟨hm2, _⟩
    · rw [hid]; exact hmfresh m hm
    · exact hmfresh m2 hm2
  · intro m2 hm2
    rcases mem_setBy hm2 with rfl | ⟨hm2, _⟩
    · rw [hmg']; exact hgfresh g hg
    · exact hmgfresh m2 hm2
  · intro m2 hm2
    rcases mem_setBy hm2 with rfl | ⟨hm2, _⟩
    · exact hact'
    · exact hinact m2 hm2
  · intro g2 hg2
    have hcount := countP_setBy (seatPred g2.id) hmpw hm hid
    rcases mem_setBy hg2 with rfl | ⟨hg2mem, hg2ne⟩
    · have hold := hseat g hg
      rw [approvedActiveCount_eq] at hold ⊢
      rw [hgid] at hcount ⊢
      cases hpm : seatPred g.id m <;> cases hpm' : seatPred g.id m' <;>
        rw [hpm, hpm'] at hcount hcur <;>
        simp at hcount hcur <;> omega
    · have hold := hseat g2 hg2mem
      rw [approvedActiveCount_eq] at hold ⊢
      have hne : g2.id ≠ g.id := by rw [← hgid]; exact hg2ne
      have hpm : seatPred g2.id m = false :=
        seatPred_false_of_ne_gid (by rw [hmg]; exact fun h => hne h.symm)
      have hpm' : seatPred g2.id m' = false :=
        seatPred_false_of_ne_gid (by rw [hmg']; exact fun h => hne h.symm)
      rw [hpm, hpm'] at hcount
      simp at hcount
      omega

/-- Updating a member row in a way that does not affect any gathering's
approved-active count preserves the invariant. -/
theorem Inv_set_member_only (db : DB) (m m' : GatheringMember) (hInv : db.Inv)
    (hm : m ∈ db.members) (hid : m'.id = m.id)
    (hgidm : m'.gatheringId = m.gatheringId)
    (hact' : m'.isActive = false → m'.status = MemberStatus.approved)
    (hp : ∀ gid, seatPred gid m' = seatPred gid m) :
    (db.setMember m').Inv := by
  obtain ⟨⟨hgnd, hmnd, hgfresh, hmfresh, hmgfresh, hinact⟩, hseat⟩ := hInv
  have hmpw : db.members.Pairwise fun x y => x.id ≠ y.id :=
    List.pairwise_map.mp hmnd
  simp only [DB.Inv, DB.WF, DB.SeatInv, DB.setMember]
  refine ⟨⟨hgnd, ?_, hgfresh, ?_, ?_, ?_⟩, ?_⟩
  · rw [setBy_map_key]; exact hmnd
  · intro m2 hm2
    rcases mem_setBy hm2 with rfl | ⟨hm2, _⟩
    · rw [hid]; exact hmfresh m hm
    · exact hmfresh m2 hm2
  · intro m2 hm2
    rcases mem_setBy hm2 with rfl | ⟨hm2, _⟩
    · rw [hgidm]; exact hmgfresh m hm
    · exact hmgfresh m2 hm2
  · intro m2 hm2
    rcases mem_setBy hm2 with rfl | ⟨hm2, _⟩
    · exact hact'
    · exact hinact m2 hm2
  · intro g2 hg2
    have hcount := countP_setBy (seatPred g2.id) hmpw hm hid
    have hold := hseat g2 hg2
    rw [approvedActiveCount_eq] at hold ⊢
    rw [hp g2.id] at hcount
    omega

/-- Inserting a fresh, active member row that does not satisfy the
approved-active predicate preserves the invariant. -/
theorem Inv_insert_member (db : DB) (m : GatheringMember) (hInv : db.Inv)
    (hid : m.id = db.nextMemberId)
    (hgid : m.gatheringId < db.nextGatheringId)
    (hact : m.isActive = true)
    (hp : ∀ gid, seatPred gid m = false) :
    DB.Inv { db with members := m :: db.members,
                     nextMemberId := db.nextMemberId + 1 } := by
  obtain ⟨⟨hgnd, hmnd, hgfresh, hmfresh, hmgfresh, hinact⟩, hseat⟩ := hInv
  simp only [DB.Inv, DB.WF, DB.SeatInv]
  refine ⟨⟨hgnd, ?_, hgfresh, ?_, ?_, ?_⟩, ?_⟩
  · rw [List.map_cons, List.nodup_cons]
    refine ⟨?_, hmnd⟩
    intro hcon
    rcases List.mem_map.mp hcon with ⟨x, hx, hxid⟩
    have := hmfresh x hx
    omega
  · intro m2 hm2
    rcases List.mem_cons.mp hm2 with rfl | hm2
    · omega
    · have := hmfresh m2 hm2
      omega
  · intro m2 hm2
    rcases List.mem_cons.mp hm2 with rfl | hm2
    · exact hgid
    · exact hmgfresh m2 hm2
  · intro m2 hm2
    rcases List.mem_cons.mp hm2 with rfl | hm2
    · intro hcon; rw [hact] at hcon; cases hcon
    · exact hinact m2 hm2
  · intro g2 hg2
    have hold := hseat g2 hg2
    rw [approvedActiveCount_eq] at hold ⊢
    rw [List.countP_cons, hp g2.id]
    simp only [Bool.false_eq_true, if_false]
    omega

/-- Deleting a member row that does not satisfy the approved-active
predicate preserves the invariant. -/
theorem Inv_erase_member (db : DB) (m : GatheringMember) (hInv : db.Inv)
    (hm : m ∈ db.members) (hp : ∀ gid, seatPred gid m = false) :
    (db.eraseMember m.id).Inv := by
  obtain ⟨⟨hgnd, hmnd, hgfresh, hmfresh, hmgfresh, hinact⟩, hseat⟩ := hInv
  have hmpw : db.members.Pairwise fun x y => x.id ≠ y.id :=
    List.pairwise_map.mp hmnd
  simp only [DB.Inv, DB.WF, DB.SeatInv, DB.eraseMember]
  refine ⟨⟨hgnd, ?_, hgfresh, ?_, ?_, ?_⟩, ?_⟩
  · exact List.Nodup.sublist (List.Sublist.map _ (List.filter_sublist _)) hmnd
  · intro m2 hm2
    exact hmfresh m2 (List.mem_of_mem_filter hm2)
  · intro m2 hm2
    exact hmgfresh m2 (List.mem_of_mem_filter hm2)
  · intro m2 hm2
    exact hinact m2 (List.mem_of_mem_filter hm2)
  · intro g2 hg2
    have hcount := countP_eraseBy (seatPred g2.id) hmpw hm
    have hold := hseat g2 hg2
    rw [approvedActiveCount_eq] at hold ⊢
    rw [hp g2.id] at hcount
    simp at hcount
    omega

theorem increment_members_id (g : Gathering) : g.increment_members.id = g.id := by
  simp only [Gathering.increment_members]
  split <;> rfl

theorem increment_members_currentMembers (g : Gathering) :
    g.increment_members.currentMembers = g.currentMembers + 1 := by
  simp only [Gathering.increment_members]
  split <;> rfl

theorem decrement_members_id (g : Gathering) : g.decrement_members.id = g.id := by
  simp only [Gathering.decrement_members]
  split
  · split <;> rfl
  · rfl

theorem decrement_members_currentMembers (g : Gathering)
    (h : 0 < g.currentMembers) :
    g.decrement_members.currentMembers = g.currentMembers - 1 := by
  simp only [Gathering.decrement_members]
  rw [if_pos h]
  split <;> rfl

theorem decrement_members_eq_self (g : Gathering) (h : ¬0 < g.currentMembers) :
    g.decrement_members = g := by
  simp only [Gathering.decrement_members]
  rw [if_neg h]

theorem decrement_members_status (g : Gathering) (h : 0 < g.currentMembers)
    (h2 : g.status = .recruitment_complete) :
    g.decrement_members.status = .recruiting := by
  simp only [Gathering.decrement_members]
  rw [if_pos h, if_pos (beq_iff_eq.mpr h2)]

theorem Inv_create (db : DB) (hInv : db.Inv) (u : Nat) (mx : Int) :
    (applyOp db (.create u mx)).Inv := by
  obtain ⟨⟨hgnd, hmnd, hgfresh, hmfresh, hmgfresh, hinact⟩, hseat⟩ := hInv
  simp only [applyOp, create_gathering, DB.Inv, DB.WF, DB.SeatInv]
  refine ⟨⟨?_, ?_, ?_, ?_, ?_, ?_⟩, ?_⟩
  · rw [List.map_cons, List.nodup_cons]
    refine ⟨?_, hgnd⟩
    intro hcon
    rcases List.mem_map.mp hcon with ⟨x, hx, hxid⟩
    have hxid2 : x.id = db.nextGatheringId := hxid
    have := hgfresh x hx
    omega
  · rw [List.map_cons, List.nodup_cons]
    refine ⟨?_, hmnd⟩
    intro hcon
    rcases List.mem_map.mp hcon with ⟨x, hx, hxid⟩
    have hxid2 : x.id = db.nextMemberId := hxid
    have := hmfresh x hx
    omega
  · intro g2 hg2
    rcases List.mem_cons.mp hg2 with rfl | hg2
    · show db.nextGatheringId < db.nextGatheringId + 1
      omega
    · have := hgfresh g2 hg2
      omega
  · intro m2 hm2
    rcases List.mem_cons.mp hm2 with rfl | hm2
    · show db.nextMemberId < db.nextMemberId + 1
      omega
    · have := hmfresh m2 hm2
      omega
  · intro m2 hm2
    rcases List.mem_cons.mp hm2 with rfl | hm2
    · show db.nextGatheringId < db.nextGatheringId + 1
      omega
    · have := hmgfresh m2 hm2
      omega
  · intro m2 hm2
    rcases List.mem_cons.mp hm2 with rfl | hm2
    · intro hcon; cases hcon
    · exact hinact m2 hm2
  · intro g2 hg2
    rcases List.mem_cons.mp hg2 with rfl | hg2
    · rw [approvedActiveCount_eq, List.countP_cons]
      have hzero : db.members.countP (seatPred db.nextGatheringId) = 0 :=
        List.countP_eq_zero.mpr fun m2 hm2 => by
          rw [seatPred_false_of_ne_gid
            (Nat.ne_of_lt (hmgfresh m2 hm2))]
          simp
      rw [hzero]
      simp [seatPred]
    · have hold := hseat g2 hg2
      rw [approvedActiveCount_eq] at hold ⊢
      rw [List.countP_cons]
      have hg2lt := hgfresh g2 hg2
      have hfalse : seatPred g2.id
          { id := db.nextMemberId, userId := u, gatheringId := db.nextGatheringId,
            role := .leader, status := .approved, isActive := true } = false :=
        seatPred_false_of_ne_gid (Nat.ne_of_gt hg2lt)
      rw [hfalse]
      simp only [Bool.false_eq_true, if_false]
      omega

theorem Inv_join (db : DB) (hInv : db.Inv) (u gid : Nat) :
    (applyOp db (.join u gid)).Inv := by
  simp only [applyOp]
  split
  · next p heq =>
    unfold join_gathering at heq
    split at heq
    · cases heq
    · next g hfind =>
      split at heq
      · cases heq
      · split at heq
        · cases heq
        · split at heq
          · cases heq
          · split at heq
            · cases heq
            · split at heq
              · cases heq
              · cases heq
                have hg : g ∈ db.gatherings := List.mem_of_find?_eq_some hfind
                apply Inv_insert_member db _ hInv rfl
                · exact hInv.1.2.2.1 g hg
                · rfl
                · intro gid2
                  exact seatPred_false_of_not_approved (by simp)
  · exact hInv

theorem Inv_approve (db : DB) (hInv : db.Inv) (mid u : Nat) :
    (applyOp db (.approve mid u)).Inv := by
  simp only [applyOp]
  split
  · next p heq =>
    unfold approve_member at heq
    split at heq
    · cases heq
    · next member hfindm =>
      split at heq
      · cases heq
      · next gathering hfindg =>
        split at heq
        · cases heq
        · next howner =>
          split at heq
          · cases heq
          · next hpend0 =>
            split at heq
            · cases heq
            · next hfull =>
              cases heq
              have hm : member ∈ db.members := List.mem_of_find?_eq_some hfindm
              have hg : gathering ∈ db.gatherings := List.mem_of_find?_eq_some hfindg
              have hmg : member.gatheringId = gathering.id := by
                have := List.find?_some hfindg
                exact (beq_iff_eq.mp this).symm
              have hpend : member.status = .pending := by
                simp at hpend0
                exact hpend0
              have hactive : member.isActive = true := by
                cases hao : member.isActive with
                | true => rfl
                | false =>
                  have := hInv.1.2.2.2.2.2 member hm hao
                  rw [hpend] at this
                  cases this
              have h1 : (member.approve gathering).1 =
                  { member with status := .approved } := by
                simp [GatheringMember.approve, hpend]
              have h2 : (member.approve gathering).2 =
                  gathering.increment_members := by
                simp [GatheringMember.approve, hpend]
              show ((db.setMember (member.approve gathering).1).setGathering
                (member.approve gathering).2).Inv
              rw [h1, h2]
              apply Inv_set_member_gathering db member
                { member with status := .approved } gathering
                gathering.increment_members hInv hm hg rfl
                (increment_members_id gathering) hmg hmg (fun _ => rfl)
              have hpsm : seatPred gathering.id member = false :=
                seatPred_false_of_not_approved (by rw [hpend]; simp)
              have hpsm' : seatPred gathering.id
                  { member with status := MemberStatus.approved } = true :=
                seatPred_true_iff.mpr ⟨hmg, rfl, hactive⟩
              rw [hpsm, hpsm', increment_members_currentMembers]
              simp
  · exact hInv

theorem Inv_reject (db : DB) (hInv : db.Inv) (mid u : Nat) :
    (applyOp db (.reject mid u)).Inv := by
  simp only [applyOp]
  split
  · next p heq =>
    unfold reject_member at heq
    split at heq
    · cases heq
    · next member hfindm =>
      split at heq
      · cases heq
      · next gathering hfindg =>
        split at heq
        · cases heq
        · split at heq
          · cases heq
          · next hpend0 =>
            cases heq
            have hm : member ∈ db.members := List.mem_of_find?_eq_some hfindm
            have hpend : member.status = .pending := by
              simp at hpend0
              exact hpend0
            have hreject : member.reject = { member with status := .rejected } := by
              simp [GatheringMember.reject, hpend]
            show (db.setMember member.reject).Inv
            rw [hreject]
            apply Inv_set_member_only db member
              { member with status := .rejected } hInv hm rfl rfl
            · intro hcon
              have hactive : member.isActive = true := by
                cases hao : member.isActive with
                | true => rfl
                | false =>
                  have := hInv.1.2.2.2.2.2 member hm hao
                  rw [hpend] at this
                  cases this
              rw [hactive] at hcon
              cases hcon
            · intro gid2
              rw [seatPred_false_of_not_approved (by simp),
                seatPred_false_of_not_approved (by rw [hpend]; simp)]
  · exact hInv

theorem Inv_leave (db : DB) (hInv : db.Inv) (u gid : Nat) :
    (applyOp db (.leave u gid)).Inv := by
  simp only [applyOp]
  split
  · next p heq =>
    unfold leave_gathering at heq
    split at heq
    · cases heq
    · next member hfindm =>
      split at heq
      · cases heq
      · next gathering hfindg =>
        split at heq
        · cases heq
        · next hlead =>
          split at heq
          · cases heq
          · next happr0 =>
            cases heq
            have hm : member ∈ db.members := List.mem_of_find?_eq_some hfindm
            have hg : gathering ∈ db.gatherings := List.mem_of_find?_eq_some hfindg
            have hpred := List.find?_some hfindm
            simp only [Bool.and_eq_true, beq_iff_eq] at hpred
            have hact : member.isActive = true := hpred.2
            have hmg : member.gatheringId = gathering.id := by
              have := List.find?_some hfindg
              exact (beq_iff_eq.mp this).symm
            have happr : member.status = .approved := by
              simp [GatheringMember.is_approved] at happr0
              exact happr0
            have hps : seatPred gathering.id member = true :=
              seatPred_true_iff.mpr ⟨hmg, happr, hact⟩
            have hpos : 0 < gathering.currentMembers := by
              have hseatg := hInv.2 gathering hg
              rw [approvedActiveCount_eq] at hseatg
              have hcpos : 0 < db.members.countP (seatPred gathering.id) :=
                List.countP_pos_iff.mpr ⟨member, hm, hps⟩
              omega
            have h1 : (member.leave gathering).1 =
                { member with isActive := false } := by
              simp [GatheringMember.leave, GatheringMember.is_approved, happr]
            have h2 : (member.leave gathering).2 =
                gathering.decrement_members := by
              simp [GatheringMember.leave, GatheringMember.is_approved, happr]
            show ((db.setMember (member.leave gathering).1).setGathering
              (member.leave gathering).2).Inv
            rw [h1, h2]
            apply Inv_set_member_gathering db member
              { member with isActive := false } gathering
              gathering.decrement_members hInv hm hg rfl
              (decrement_members_id gathering) hmg hmg (fun _ => happr)
            have hps' : seatPred gathering.id
                { member with isActive := false } = false :=
              seatPred_false_of_inactive rfl
            rw [hps, hps', decrement_members_currentMembers gathering hpos]
            simp
  · exact hInv

theorem Inv_cancel (db : DB) (hInv : db.Inv) (u gid : Nat) :
    (applyOp db (.cancel u gid)).Inv := by
  simp only [applyOp]
  split
  · next p heq =>
    unfold cancel_join_request at heq
    split at heq
    · cases heq
    · next member hfindm =>
      cases heq
      have hm : member ∈ db.members := List.mem_of_find?_eq_some hfindm
      have hpred := List.find?_some hfindm
      simp only [Bool.and_eq_true, beq_iff_eq] at hpred
      have hpend : member.status = .pending := hpred.1.2
      show (db.eraseMember member.id).Inv
      apply Inv_erase_member db member hInv hm
      intro gid2
      exact seatPred_false_of_not_approved (by rw [hpend]; simp)
  · exact hInv

theorem Inv_remove (db : DB) (hInv : db.Inv) (gid mid u : Nat) :
    (applyOp db (.remove gid mid u)).Inv := by
  simp only [applyOp]
  split
  · next p heq =>
    unfold remove_member at heq
    split at heq
    · cases heq
    · next gathering hfindg =>
      split at heq
      · cases heq
      · next howner =>
        split at heq
        · cases heq
        · next member hfindm =>
          split at heq
          · cases heq
          · next hlead =>
            split at heq
            · next happr0 =>
              cases heq
              have hm : member ∈ db.members := List.mem_of_find?_eq_some hfindm
              have hg : gathering ∈ db.gatherings := List.mem_of_find?_eq_some hfindg
              have hpred := List.find?_some hfindm
              simp only [Bool.and_eq_true, beq_iff_eq] at hpred
              have hact : member.isActive = true := hpred.2
              have hmg : member.gatheringId = gathering.id := hpred.1.2
              have happr : member.status = .approved := by
                simp [GatheringMember.is_approved] at happr0
                exact happr0
              have hps : seatPred gathering.id member = true :=
                seatPred_true_iff.mpr ⟨hmg, happr, hact⟩
              have hpos : 0 < gathering.currentMembers := by
                have hseatg := hInv.2 gathering hg
                rw [approvedActiveCount_eq] at hseatg
                have hcpos : 0 < db.members.countP (seatPred gathering.id) :=
                  List.countP_pos_iff.mpr ⟨member, hm, hps⟩
                omega
              have h1 : (member.leave gathering).1 =
                  { member with isActive := false } := by
                simp [GatheringMember.leave, GatheringMember.is_approved, happr]
              have h2 : (member.leave gathering).2 =
                  gathering.decrement_members := by
                simp [GatheringMember.leave, GatheringMember.is_approved, happr]
              show ((db.setMember (member.leave gathering).1).setGathering
                (member.leave gathering).2).Inv
              rw [h1, h2]
              apply Inv_set_member_gathering db member
                { member with isActive := false } gathering
                gathering.decrement_members hInv hm hg rfl
                (decrement_members_id gathering) hmg hmg (fun _ => happr)
              have hps' : seatPred gathering.id
                  { member with isActive := false } = false :=
                seatPred_false_of_inactive rfl
              rw [hps, hps', decrement_members_currentMembers gathering hpos]
              simp
            · next happr0 =>
              cases heq
              have hm : member ∈ db.members := List.mem_of_find?_eq_some hfindm
              have hnappr : member.status ≠ .approved := by
                simp [GatheringMember.is_approved] at happr0
                exact happr0
              show (db.eraseMember member.id).Inv
              apply Inv_erase_member db member hInv hm
              intro gid2
              exact seatPred_false_of_not_approved hnappr
  · exact hInv

/-- Every membership operation preserves the invariant. -/
theorem Inv_applyOp (db : DB) (hInv : db.Inv) (op : MembershipOp) :
    (applyOp db op).Inv := by
  cases op with
  | create u mx => exact Inv_create db hInv u mx
  | join u gid => exact Inv_join db hInv u gid
  | approve mid u => exact Inv_approve db hInv mid u
  | reject mid u => exact Inv_reject db hInv mid u
  | leave u gid => exact Inv_leave db hInv u gid
  | cancel u gid => exact Inv_cancel db hInv u gid
  | remove gid mid u => exact Inv_remove db hInv gid mid u

theorem Inv_foldl (db : DB) (hInv : db.Inv) (ops : List MembershipOp) :
    (ops.foldl applyOp db).Inv := by
  induction ops generalizing db with
  | nil => exact hInv
  | cons op rest ih => exact ih (applyOp db op) (Inv_applyOp db hInv op)

/-- C1: Seat-count invariant — for every gathering, after every sequence of
membership operations (create_gathering, join_gathering, approve_member,
reject_member, leave_gathering, cancel_join_request, remove_member) run
from an invariant-satisfying state, `Gathering.current_members` equals the
number of `GatheringMember` rows of that gathering with `status = approved`
and `is_active = true`; the counter is maintained by the
increment_members/decrement_members calls inside the approve and leave
transitions, which the embedded operations invoke. -/
theorem C1_seat_count_invariant (db : DB) (hInv : db.Inv)
    (ops : List MembershipOp) :
    ∀ g ∈ (ops.foldl applyOp db).gatherings,
      g.currentMembers
        = approvedActiveCount (ops.foldl applyOp db).members g.id :=
  (Inv_foldl db hInv ops).2

theorem C1_seat_count_invariant_witness :
    DB.Inv {} ∧
      ∀ g ∈ (([.create 1 2, .join 2 1, .approve 2 1, .leave 2 1] :
          List MembershipOp).foldl applyOp {}).gatherings,
        g.currentMembers
          = approvedActiveCount
              (([.create 1 2, .join 2 1, .approve 2 1, .leave 2 1] :
                List MembershipOp).foldl applyOp {}).members g.id :=
  ⟨by decide, C1_seat_count_invariant {} (by decide) _⟩

/-- C2: approving a member of a gathering whose `current_members` equals
`max_members` fails with a ValueError (`Except.error`) and leaves the
database — the counter and the member's status — unchanged. -/
theorem C2_approve_at_capacity_fails (db : DB) (mid uid : Nat)
    (m : GatheringMember) (g : Gathering)
    (hm : db.findMemberById mid = some m)
    (hg : db.findGathering m.gatheringId = some g)
    (hfull : g.currentMembers = g.maxMembers) :
    (∃ e, approve_member db mid uid = .error e) ∧
      applyOp db (.approve mid uid) = db := by
  have herr : ∃ e, approve_member db mid uid = .error e := by
    unfold approve_member
    simp only [hm, hg]
    by_cases h1 : (!(g.userId == uid)) = true
    · rw [if_pos h1]; exact ⟨_, rfl⟩
    · rw [if_neg h1]
      by_cases h2 : (!(m.status == MemberStatus.pending)) = true
      · rw [if_pos h2]; exact ⟨_, rfl⟩
      · rw [if_neg h2]
        have hf : g.is_full = true := by
          unfold Gathering.is_full
          rw [decide_eq_true_eq]
          omega
        rw [if_pos hf]
        exact ⟨_, rfl⟩
  refine ⟨herr, ?_⟩
  obtain ⟨e, he⟩ := herr
  simp only [applyOp, he]

/-- A gathering at capacity (1/1) with one extra pending member. -/
def dbC2 : DB :=
  { gatherings := [{ id := 1, userId := 1, maxMembers := 1, currentMembers := 1,
                     status := .recruitment_complete }],
    members := [{ id := 1, userId := 1, gatheringId := 1, role := .leader,
                  status := .approved, isActive := true },
                { id := 2, userId := 2, gatheringId := 1, role := .participant,
                  status := .pending, isActive := true }],
    nextGatheringId := 2, nextMemberId := 3 }

theorem C2_approve_at_capacity_fails_witness :
    (∃ e, approve_member dbC2 2 1 = .error e) ∧
      applyOp dbC2 (.approve 2 1) = dbC2 :=
  C2_approve_at_capacity_fails dbC2 2 1
    { id := 2, userId := 2, gatheringId := 1, role := .participant,
      status := .pending, isActive := true }
    { id := 1, userId := 1, maxMembers := 1, currentMembers := 1,
      status := .recruitment_complete }
    (by decide) (by decide) (by decide)

/-- The pending participant row that `join_gathering` creates. -/
def joinedMember (db : DB) (u : Nat) (g : Gathering) : GatheringMember :=
  { id := db.nextMemberId, userId := u, gatheringId := g.id,
    role := .participant, status := .pending, isActive := true }

theorem join_gathering_ok_inv {db : DB} {u gid : Nat} {db' : DB}
    {m : GatheringMember} (h : join_gathering db u gid = .ok (db', m)) :
    ∃ g, db.findGathering gid = some g ∧
      (db.members.any fun x =>
        x.userId == u && x.gatheringId == g.id && x.isActive) = false ∧
      (g.userId == u) = false ∧ g.is_recruiting = true ∧ g.is_full = false ∧
      (db.members.any fun x =>
        x.userId == u && x.gatheringId == g.id) = false ∧
      m = joinedMember db u g ∧
      db' = { db with members := m :: db.members,
                      nextMemberId := db.nextMemberId + 1 } := by
  unfold join_gathering at h
  split at h
  · cases h
  · next g hfind =>
    split at h
    · cases h
    · next h1 =>
      split at h
      · cases h
      · next h2 =>
        split at h
        · cases h
        · next h3 =>
          split at h
          · cases h
          · next h4 =>
            split at h
            · cases h
            · next h5 =>
              simp only [Except.ok.injEq, Prod.mk.injEq] at h
              obtain ⟨hdb, hm⟩ := h
              have hrec : g.is_recruiting = true := by
                simp at h3
                exact h3
              refine ⟨g, hfind, Bool.eq_false_iff.mpr h1,
                Bool.eq_false_iff.mpr h2, hrec, Bool.eq_false_iff.mpr h4,
                Bool.eq_false_iff.mpr h5, hm.symm, ?_⟩
              rw [← hdb, ← hm]

theorem join_gathering_ok_of (db : DB) (u gid : Nat) (g : Gathering)
    (hfind : db.findGathering gid = some g)
    (h1 : (db.members.any fun x =>
      x.userId == u && x.gatheringId == g.id && x.isActive) = false)
    (h2 : (g.userId == u) = false)
    (h3 : g.is_recruiting = true)
    (h4 : g.is_full = false)
    (h5 : (db.members.any fun x =>
      x.userId == u && x.gatheringId == g.id) = false) :
    join_gathering db u gid =
      .ok ({ db with members := joinedMember db u g :: db.members,
                     nextMemberId := db.nextMemberId + 1 },
           joinedMember db u g) := by
  unfold join_gathering
  simp only [hfind]
  rw [if_neg (by rw [h1]; simp), if_neg (by rw [h2]; simp),
    if_neg (by rw [h3]; simp), if_neg (by rw [h4]; simp),
    if_neg (by rw [h5]; simp)]
  rfl

/-- C3 (amended): `join_gathering` creates and returns a new pending
participant row exactly when the gathering exists, its status is
recruiting, a seat remains, the requester is not the owner and no row —
active or inactive — exists for the (user, gathering) pair (the
`unique_together` constraint); when the five service checks pass but an
inactive row remains for the pair, the create raises the
unique-constraint `IntegrityError` instead of a `ValueError`; in every
failing case no row is created. -/
theorem C3_join_gathering_spec (db : DB) (u gid : Nat) :
    ((∃ db' m, join_gathering db u gid = .ok (db', m)) ↔
      (∃ g, db.findGathering gid = some g ∧ g.status = .recruiting ∧
        g.currentMembers < g.maxMembers ∧ g.userId ≠ u ∧
        ∀ m ∈ db.members, m.userId = u → m.gatheringId ≠ g.id)) ∧
    (∀ db' m, join_gathering db u gid = .ok (db', m) →
      m.role = .participant ∧ m.status = .pending ∧
      db' = { db with members := m :: db.members,
                      nextMemberId := db.nextMemberId + 1 }) ∧
    ∀ g, db.findGathering gid = some g → g.status = .recruiting →
      g.currentMembers < g.maxMembers → g.userId ≠ u →
      (∀ m ∈ db.members, m.userId = u → m.gatheringId = g.id →
        m.isActive = false) →
      (∃ m ∈ db.members, m.userId = u ∧ m.gatheringId = g.id) →
      join_gathering db u gid = .error integrityErrorMsg ∧
        applyOp db (.join u gid) = db := by
  refine ⟨⟨?_, ?_⟩, ?_, ?_⟩
  · rintro ⟨db', m, hok⟩
    obtain ⟨g, hfind, h1, h2, h3, h4, h5, hm, hdb⟩ := join_gathering_ok_inv hok
    refine ⟨g, hfind, ?_, ?_, ?_, ?_⟩
    · simpa [Gathering.is_recruiting] using h3
    · unfold Gathering.is_full at h4
      simp at h4
      omega
    · exact beq_eq_false_iff_ne.mp h2
    · intro x hx hxu
      have hfa := (List.any_eq_false.mp h5) x hx
      simp [Bool.and_eq_true, beq_iff_eq, hxu] at hfa
      exact hfa
  · rintro ⟨g, hfind, hrec, hcap, howner, hnone⟩
    have h5 : (db.members.any fun x =>
        x.userId == u && x.gatheringId == g.id) = false := by
      rw [List.any_eq_false]
      intro x hx hcon
      simp only [Bool.and_eq_true, beq_iff_eq] at hcon
      exact hnone x hx hcon.1 hcon.2
    have h1 : (db.members.any fun x =>
        x.userId == u && x.gatheringId == g.id && x.isActive) = false := by
      rw [List.any_eq_false]
      intro x hx hcon
      simp only [Bool.and_eq_true, beq_iff_eq] at hcon
      exact hnone x hx hcon.1.1 hcon.1.2
    exact ⟨_, _, join_gathering_ok_of db u gid g hfind h1
      (beq_eq_false_iff_ne.mpr howner)
      (by simp [Gathering.is_recruiting, hrec])
      (by unfold Gathering.is_full; simp; omega) h5⟩
  · intro db' m hok
    obtain ⟨g, hfind, h1, h2, h3, h4, h5, hm, hdb⟩ := join_gathering_ok_inv hok
    subst hm
    exact ⟨rfl, rfl, hdb⟩
  · intro g hfind hrec hcap howner hinact hex
    obtain ⟨m0, hm0, hm0u, hm0g⟩ := hex
    have h1 : (db.members.any fun x =>
        x.userId == u && x.gatheringId == g.id && x.isActive) = false := by
      rw [List.any_eq_false]
      intro x hx hcon
      simp only [Bool.and_eq_true, beq_iff_eq] at hcon
      have := hinact x hx hcon.1.1 hcon.1.2
      rw [this] at hcon
      exact Bool.false_ne_true hcon.2
    have h5 : (db.members.any fun x =>
        x.userId == u && x.gatheringId == g.id) = true := by
      rw [List.any_eq_true]
      exact ⟨m0, hm0, by simp [beq_iff_eq, hm0u, hm0g]⟩
    have herr : join_gathering db u gid = .error integrityErrorMsg := by
      unfold join_gathering
      simp only [hfind]
      rw [if_neg (by rw [h1]; simp),
        if_neg (by rw [beq_eq_false_iff_ne.mpr howner]; simp),
        if_neg (by simp [Gathering.is_recruiting, hrec]),
        if_neg (by unfold Gathering.is_full; simp; omega),
        if_pos h5]
    exact ⟨herr, by simp only [applyOp, herr]⟩

/-- The state reached from the empty database by: user 1 creates a
gathering with capacity 3, user 2 joins, is approved by user 1, and
leaves — leaving an inactive approved row for (user 2, gathering 1). -/
def dbX : DB :=
  ([.create 1 3, .join 2 1, .approve 2 1, .leave 2 1] :
    List MembershipOp).foldl applyOp {}

/-- The gathering row of `dbX`. -/
def gX : Gathering :=
  { id := 1, userId := 1, maxMembers := 3, currentMembers := 1,
    status := .recruiting }

/-- C3 counterexample: in the reachable state `dbX` every condition of
the claim holds for user 2 — the gathering exists and is recruiting, a
seat is free, user 2 is not the owner and holds no active row for the
pair — yet the rejoin raises the unique-constraint `IntegrityError` (not
a `ValueError`) and creates no row, refuting the claim's
"if and only if". -/
theorem C3_join_gathering_counterexample :
    dbX.findGathering 1 = some gX ∧ gX.status = .recruiting ∧
    gX.currentMembers < gX.maxMembers ∧ gX.userId ≠ 2 ∧
    (∀ m ∈ dbX.members, m.userId = 2 → m.gatheringId = gX.id →
      m.isActive = false) ∧
    join_gathering dbX 2 1 = .error integrityErrorMsg ∧
    applyOp dbX (.join 2 1) = dbX := by
  refine ⟨by decide, by decide, by decide, by decide, by decide, ?_, by decide⟩
  rfl

/-- A recruiting gathering with free seats and only its leader. -/
def dbC3 : DB :=
  { gatherings := [{ id := 1, userId := 1, maxMembers := 3, currentMembers := 1,
                     status := .recruiting }],
    members := [{ id := 1, userId := 1, gatheringId := 1, role := .leader,
                  status := .approved, isActive := true }],
    nextGatheringId := 2, nextMemberId := 2 }

theorem C3_join_gathering_spec_witness :
    ∃ db' m, join_gathering dbC3 2 1 = .ok (db', m) :=
  (C3_join_gathering_spec dbC3 2 1).1.mpr
    ⟨{ id := 1, userId := 1, maxMembers := 3, currentMembers := 1,
       status := .recruiting },
     by decide, rfl, by decide, by decide, by decide⟩

/-- C4: an approved non-leader member can leave or be removed — the row
becomes inactive, the counter is decremented, a recruitment_complete
status flips back to recruiting — while a leader can do neither and the
state is unchanged. -/
theorem C4_leave_remove (db : DB) (u gid mid : Nat)
    (m : GatheringMember) (g : Gathering)
    (hg : db.findGathering gid = some g)
    (hmL : db.members.find? (fun x =>
      x.userId == u && x.gatheringId == gid && x.isActive) = some m)
    (hmR : db.members.find? (fun x =>
      x.id == mid && x.gatheringId == g.id && x.isActive) = some m)
    (hseat : g.currentMembers = approvedActiveCount db.members g.id) :
    (m.status = .approved → m.role = .participant →
      leave_gathering db u gid =
        .ok ((db.setMember { m with isActive := false }).setGathering
              g.decrement_members, true) ∧
      remove_member db gid mid g.userId =
        .ok ((db.setMember { m with isActive := false }).setGathering
              g.decrement_members, true) ∧
      g.decrement_members.currentMembers = g.currentMembers - 1 ∧
      (g.status = .recruitment_complete →
        g.decrement_members.status = .recruiting)) ∧
    (m.role = .leader →
      (∃ e, leave_gathering db u gid = .error e) ∧
      (∃ e, remove_member db gid mid g.userId = .error e) ∧
      applyOp db (.leave u gid) = db ∧
      applyOp db (.remove gid mid g.userId) = db) := by
  have hpredL := List.find?_some hmL
  simp only [Bool.and_eq_true, beq_iff_eq] at hpredL
  have hmgid : m.gatheringId = gid := hpredL.1.2
  have hact : m.isActive = true := hpredL.2
  have hmem : m ∈ db.members := List.mem_of_find?_eq_some hmL
  have hfindg2 : db.findGathering m.gatheringId = some g := by
    rw [hmgid]
    exact hg
  have hgidg : g.id = gid := by
    have := List.find?_some hg
    exact beq_iff_eq.mp this
  constructor
  · intro happr hrole
    have hps : seatPred g.id m = true :=
      seatPred_true_iff.mpr ⟨by rw [hmgid, hgidg], happr, hact⟩
    have hpos : 0 < g.currentMembers := by
      rw [approvedActiveCount_eq] at hseat
      have hcpos : 0 < db.members.countP (seatPred g.id) :=
        List.countP_pos_iff.mpr ⟨m, hmem, hps⟩
      omega
    have h1 : (m.leave g).1 = { m with isActive := false } := by
      simp [GatheringMember.leave, GatheringMember.is_approved, happr]
    have h2 : (m.leave g).2 = g.decrement_members := by
      simp [GatheringMember.leave, GatheringMember.is_approved, happr]
    refine ⟨?_, ?_, decrement_members_currentMembers g hpos,
      decrement_members_status g hpos⟩
    · unfold leave_gathering
      simp only [hmL, hfindg2]
      rw [if_neg (by simp [GatheringMember.is_leader, hrole]),
        if_neg (by simp [GatheringMember.is_approved, happr])]
      rw [h1, h2]
    · unfold remove_member
      simp only [hg]
      rw [if_neg (by simp)]
      simp only [hmR]
      rw [if_neg (by simp [GatheringMember.is_leader, hrole]),
        if_pos (by simp [GatheringMember.is_approved, happr])]
      rw [h1, h2]
  · intro hlead
    have herrL : ∃ e, leave_gathering db u gid = .error e := by
      unfold leave_gathering
      simp only [hmL, hfindg2]
      rw [if_pos (by simp [GatheringMember.is_leader, hlead])]
      exact ⟨_, rfl⟩
    have herrR : ∃ e, remove_member db gid mid g.userId = .error e := by
      unfold remove_member
      simp only [hg]
      rw [if_neg (by simp)]
      simp only [hmR]
      rw [if_pos (by simp [GatheringMember.is_leader, hlead])]
      exact ⟨_, rfl⟩
    refine ⟨herrL, herrR, ?_, ?_⟩
    · obtain ⟨e, he⟩ := herrL
      simp only [applyOp, he]
    · obtain ⟨e, he⟩ := herrR
      simp only [applyOp, he]

/-- A recruiting gathering with two seats taken. -/
def gC4 : Gathering :=
  { id := 1, userId := 1, maxMembers := 3, currentMembers := 2,
    status := .recruiting }

/-- An approved, active participant of `gC4`. -/
def mC4 : GatheringMember :=
  { id := 2, userId := 2, gatheringId := 1, role := .participant,
    status := .approved, isActive := true }

/-- `gC4` together with its leader row and `mC4`. -/
def dbC4 : DB :=
  { gatherings := [gC4],
    members := [{ id := 1, userId := 1, gatheringId := 1, role := .leader,
                  status := .approved, isActive := true }, mC4],
    nextGatheringId := 2, nextMemberId := 3 }

theorem C4_leave_remove_witness :
    leave_gathering dbC4 2 1 =
      .ok ((dbC4.setMember { mC4 with isActive := false }).setGathering
            gC4.decrement_members, true) ∧
    remove_member dbC4 1 2 gC4.userId =
      .ok ((dbC4.setMember { mC4 with isActive := false }).setGathering
            gC4.decrement_members, true) := by
  have h := C4_leave_remove dbC4 2 1 2 mC4 gC4 (by decide) (by decide)
    (by decide) (by decide)
  exact ⟨(h.1 rfl rfl).1, (h.1 rfl rfl).2.1⟩

/-- A gathering whose status is not recruiting rejects every join
request. -/
theorem join_error_of_not_recruiting (db : DB) (u gid : Nat)
    (g : Gathering) (hfind : db.findGathering gid = some g)
    (hst : g.status ≠ .recruiting) :
    ∃ e, join_gathering db u gid = .error e := by
  unfold join_gathering
  simp only [hfind]
  by_cases h1 : (db.members.any fun x =>
      x.userId == u && x.gatheringId == g.id && x.isActive) = true
  · rw [if_pos h1]
    exact ⟨_, rfl⟩
  · rw [if_neg h1]
    by_cases h2 : (g.userId == u) = true
    · rw [if_pos h2]
      exact ⟨_, rfl⟩
    · rw [if_neg h2]
      rw [if_pos (by simp [Gathering.is_recruiting, hst])]
      exact ⟨_, rfl⟩

/-- C5: with `max_members = 1`, `current_members = 0` and a pending member,
approving sets the counter to 1, flips the status to recruitment_complete,
and every subsequent join attempt on that gathering fails. -/
theorem C5_capacity_one (db : DB) (mid uid : Nat)
    (m : GatheringMember) (g : Gathering)
    (hm : db.findMemberById mid = some m)
    (hg : db.findGathering m.gatheringId = some g)
    (howner : g.userId = uid)
    (hpend : m.status = .pending)
    (hmax : g.maxMembers = 1)
    (hcur : g.currentMembers = 0) :
    ∃ db', approve_member db mid uid =
        .ok (db', { m with status := .approved }) ∧
      db'.findGathering g.id
        = some { g with currentMembers := 1,
                        status := .recruitment_complete } ∧
      ∀ u2, ∃ e, join_gathering db' u2 g.id = .error e := by
  have hincr : g.increment_members =
      { g with currentMembers := 1, status := .recruitment_complete } := by
    simp [Gathering.increment_members, Gathering.is_full, hcur, hmax]
  have h1 : (m.approve g).1 = { m with status := .approved } := by
    simp [GatheringMember.approve, hpend]
  have h2 : (m.approve g).2 =
      { g with currentMembers := 1, status := .recruitment_complete } := by
    simp [GatheringMember.approve, hpend, hincr]
  have hok : approve_member db mid uid =
      .ok ((db.setMember { m with status := .approved }).setGathering
            { g with currentMembers := 1, status := .recruitment_complete },
          { m with status := .approved }) := by
    unfold approve_member
    simp only [hm, hg]
    rw [if_neg (by rw [howner]; simp), if_neg (by rw [hpend]; simp),
      if_neg (by unfold Gathering.is_full; rw [hcur, hmax]; simp)]
    rw [h1, h2]
  have hgid : g.id = m.gatheringId := by
    have := List.find?_some hg
    exact beq_iff_eq.mp this
  have hfind0 : db.gatherings.find? (fun x => x.id == g.id) = some g := by
    rw [hgid]
    exact hg
  have hfind' :
      ((db.setMember { m with status := .approved }).setGathering
        { g with currentMembers := 1,
                 status := .recruitment_complete }).findGathering g.id
      = some { g with currentMembers := 1,
                      status := .recruitment_complete } :=
    find?_setBy hfind0 rfl
  refine ⟨_, hok, hfind', ?_⟩
  intro u2
  exact join_error_of_not_recruiting _ u2 g.id _ hfind' (fun h => nomatch h)

/-- A recruiting one-seat gathering with an empty counter. -/
def gC5 : Gathering :=
  { id := 1, userId := 1, maxMembers := 1, currentMembers := 0,
    status := .recruiting }

/-- A pending join request for `gC5`. -/
def mC5 : GatheringMember :=
  { id := 2, userId := 2, gatheringId := 1, role := .participant,
    status := .pending, isActive := true }

/-- `gC5` with its single pending member. -/
def dbC5 : DB :=
  { gatherings := [gC5], members := [mC5],
    nextGatheringId := 2, nextMemberId := 3 }

theorem C5_capacity_one_witness :
    ∃ db', approve_member dbC5 2 1 =
        .ok (db', { mC5 with status := .approved }) ∧
      db'.findGathering gC5.id
        = some { gC5 with currentMembers := 1,
                          status := .recruitment_complete } ∧
      ∀ u2, ∃ e, join_gathering db' u2 gC5.id = .error e :=
  C5_capacity_one dbC5 2 1 mC5 gC5 (by decide) (by decide) rfl rfl rfl rfl

/-- C7: deleting a gathering (owner, status neither in_progress nor
finished) fails when `current_members > 1` and succeeds — the row and its
member rows are removed and `true` is returned — when `current_members`
is exactly 1. -/
theorem C7_delete_gathering_spec (db : DB) (gid uid : Nat) (g : Gathering)
    (hg : db.findGathering gid = some g)
    (howner : g.userId = uid)
    (hst1 : g.status ≠ .in_progress)
    (hst2 : g.status ≠ .finished) :
    (1 < g.currentMembers → ∃ e, delete_gathering db gid uid = .error e) ∧
    (g.currentMembers = 1 →
      delete_gathering db gid uid =
        .ok ({ db with
                gatherings := db.gatherings.filter fun x => !(x.id == g.id),
                members := db.members.filter fun x => !(x.gatheringId == g.id) },
             true)) := by
  unfold delete_gathering
  simp only [hg]
  rw [if_neg (by rw [howner]; simp)]
  rw [if_neg (by simp [hst1, hst2])]
  constructor
  · intro h
    rw [if_pos h]
    exact ⟨_, rfl⟩
  · intro h
    rw [if_neg (by omega)]

theorem C7_delete_gathering_spec_witness :
    (∃ e, delete_gathering dbC4 1 1 = .error e) ∧
    ∃ p, delete_gathering dbC3 1 1 = .ok p := by
  constructor
  · exact (C7_delete_gathering_spec dbC4 1 1 gC4 (by decide) rfl
      (by decide) (by decide)).1 (by decide)
  · exact ⟨_, (C7_delete_gathering_spec dbC3 1 1
      { id := 1, userId := 1, maxMembers := 3, currentMembers := 1,
        status := .recruiting }
      (by decide) rfl (by decide) (by decide)).2 rfl⟩

/-- Every gathering row reachable by one membership operation is an old
row, the increment/decrement of an old row, or a fresh row with counter 1. -/
theorem mem_applyOp_gatherings (db : DB) (op : MembershipOp) :
    ∀ g2 ∈ (applyOp db op).gatherings,
      g2 ∈ db.gatherings ∨
      (∃ g ∈ db.gatherings, g2 = g.increment_members) ∨
      (∃ g ∈ db.gatherings, g2 = g.decrement_members) ∨
      g2.currentMembers = 1 := by
  cases op with
  | create u mx =>
    intro g2 hg2
    simp only [applyOp, create_gathering] at hg2
    rcases List.mem_cons.mp hg2 with rfl | hg2
    · right; right; right; rfl
    · left; exact hg2
  | join u gid =>
    intro g2 hg2
    simp only [applyOp] at hg2
    split at hg2
    · next p heq =>
      obtain ⟨g, hfind, h1, h2, h3, h4, h5, hm, hdb⟩ :=
        join_gathering_ok_inv heq
      rw [hdb] at hg2
      left; exact hg2
    · left; exact hg2
  | approve mid u =>
    intro g2 hg2
    simp only [applyOp] at hg2
    split at hg2
    · next p heq =>
      unfold approve_member at heq
      split at heq
      · cases heq
      · next member hfindm =>
        split at heq
        · cases heq
        · next gathering hfindg =>
          split at heq
          · cases heq
          · split at heq
            · cases heq
            · next hpend0 =>
              split at heq
              · cases heq
              · cases heq
                have hpend : member.status = .pending := by
                  simp at hpend0
                  exact hpend0
                have h2 : (member.approve gathering).2 =
                    gathering.increment_members := by
                  simp [GatheringMember.approve, hpend]
                simp only [DB.setGathering, DB.setMember, h2] at hg2
                rcases mem_setBy hg2 with rfl | ⟨hg2, _⟩
                · right; left
                  exact ⟨gathering, List.mem_of_find?_eq_some hfindg, rfl⟩
                · left; exact hg2
    · left; exact hg2
  | reject mid u =>
    intro g2 hg2
    simp only [applyOp] at hg2
    split at hg2
    · next p heq =>
      unfold reject_member at heq
      split at heq
      · cases heq
      · split at heq
        · cases heq
        · split at heq
          · cases heq
          · split at heq
            · cases heq
            · cases heq
              left; exact hg2
    · left; exact hg2
  | leave u gid =>
    intro g2 hg2
    simp only [applyOp] at hg2
    split at hg2
    · next p heq =>
      unfold leave_gathering at heq
      split at heq
      · cases heq
      · next member hfindm =>
        split at heq
        · cases heq
        · next gathering hfindg =>
          split at heq
          · cases heq
          · split at heq
            · cases heq
            · next happr0 =>
              cases heq
              have happr : member.status = .approved := by
                simp [GatheringMember.is_approved] at happr0
                exact happr0
              have h2 : (member.leave gathering).2 =
                  gathering.decrement_members := by
                simp [GatheringMember.leave, GatheringMember.is_approved, happr]
              simp only [DB.setGathering, DB.setMember, h2] at hg2
              rcases mem_setBy hg2 with rfl | ⟨hg2, _⟩
              · right; right; left
                exact ⟨gathering, List.mem_of_find?_eq_some hfindg, rfl⟩
              · left; exact hg2
    · left; exact hg2
  | cancel u gid =>
    intro g2 hg2
    simp only [applyOp] at hg2
    split at hg2
    · next p heq =>
      unfold cancel_join_request at heq
      split at heq
      · cases heq
      · cases heq
        left; exact hg2
    · left; exact hg2
  | remove gid mid u =>
    intro g2 hg2
    simp only [applyOp] at hg2
    split at hg2
    · next p heq =>
      unfold remove_member at heq
      split at heq
      · cases heq
      · next gathering hfindg =>
        split at heq
        · cases heq
        · split at heq
          · cases heq
          · next member hfindm =>
            split at heq
            · cases heq
            · split at heq
              · next happr0 =>
                cases heq
                have happr : member.status = .approved := by
                  simp [GatheringMember.is_approved] at happr0
                  exact happr0
                have h2 : (member.leave gathering).2 =
                    gathering.decrement_members := by
                  simp [GatheringMember.leave, GatheringMember.is_approved,
                    happr]
                simp only [DB.setGathering, DB.setMember, h2] at hg2
                rcases mem_setBy hg2 with rfl | ⟨hg2, _⟩
                · right; right; left
                  exact ⟨gathering, List.mem_of_find?_eq_some hfindg, rfl⟩
                · left; exact hg2
              · cases heq
                left; exact hg2
    · left; exact hg2

/-- C10: `current_members` never becomes negative — `decrement_members`
on a zero counter is a no-op (no counter change, no status flip, no save),
and every membership operation preserves `current_members >= 0`. -/
theorem C10_counter_nonneg (g0 : Gathering) (db : DB) (op : MembershipOp) :
    (g0.currentMembers = 0 → g0.decrement_members = g0) ∧
    ((∀ g ∈ db.gatherings, 0 ≤ g.currentMembers) →
      ∀ g ∈ (applyOp db op).gatherings, 0 ≤ g.currentMembers) := by
  constructor
  · intro h
    exact decrement_members_eq_self g0 (by omega)
  · intro hnn g2 hg2
    rcases mem_applyOp_gatherings db op g2 hg2 with
      h | ⟨g, hgm, rfl⟩ | ⟨g, hgm, rfl⟩ | h
    · exact hnn g2 h
    · rw [increment_members_currentMembers]
      have := hnn g hgm
      omega
    · by_cases hp : 0 < g.currentMembers
      · rw [decrement_members_currentMembers g hp]
        omega
      · rw [decrement_members_eq_self g hp]
        exact hnn g hgm
    · omega

/-- A gathering whose counter is already empty. -/
def gC10 : Gathering :=
  { id := 9, userId := 1, maxMembers := 2, currentMembers := 0,
    status := .recruitment_complete }

theorem C10_counter_nonneg_witness :
    gC10.decrement_members = gC10 ∧
      ∀ g ∈ (applyOp dbC3 (.leave 1 1)).gatherings, 0 ≤ g.currentMembers :=
  ⟨(C10_counter_nonneg gC10 dbC3 (.leave 1 1)).1 rfl,
   (C10_counter_nonneg gC10 dbC3 (.leave 1 1)).2 (by decide)⟩

/-- The uniform response envelope `{"message": str, "data": any,
"status_code": int}` built by `APIResponse.__init__`
(apps/common/responses.py); the `data` payload is abstracted to the
error string it carries. -/
structure APIResponseBody where
  message : String
  data : String := ""
  status_code : Nat
deriving DecidableEq, Repr

/-- `APIResponse.success`: 200. -/
def APIResponse.success (message : String) (data : String) : APIResponseBody :=
  { message := message, data := data, status_code := 200 }

/-- `APIResponse.bad_request`: 400. -/
def APIResponse.bad_request (message : String) (data : String) : APIResponseBody :=
  { message := message, data := data, status_code := 400 }

/-- `APIResponse.forbidden`: 403. -/
def APIResponse.forbidden (message : String) (data : String) : APIResponseBody :=
  { message := message, data := data, status_code := 403 }

/-- `APIResponse.not_found`: 404. -/
def APIResponse.not_found (message : String) (data : String) : APIResponseBody :=
  { message := message, data := data, status_code := 404 }

/-- `APIResponse.server_error`: 500. -/
def APIResponse.server_error (message : String) (data : String) : APIResponseBody :=
  { message := message, data := data, status_code := 500 }

/-- A Python exception as `APIResponse.from_exception` inspects it: its
class name (`exception.__class__.__name__`) and which built-in classes
it is an instance of. -/
structure PyException where
  className : String
  message : String := ""
  isValueError : Bool := false
  isKeyError : Bool := false
  isPermissionError : Bool := false
  isFileNotFoundError : Bool := false
  isAttributeError : Bool := false
deriving DecidableEq, Repr

/-- Whether `needle` begins the second list. -/
def charsStart : List Char → List Char → Bool
  | [], _ => true
  | _ :: _, [] => false
  | a :: ns, b :: hs => a == b && charsStart ns hs

/-- Whether `needle` occurs inside the second list (Python `in` on
strings). -/
def charsContain (needle : List Char) : List Char → Bool
  | [] => needle.isEmpty
  | b :: hs => charsStart needle (b :: hs) || charsContain needle hs

/-- `"DoesNotExist" in exception.__class__.__name__`. -/
def nameHasDoesNotExist (e : PyException) : Bool :=
  charsContain "DoesNotExist".toList e.className.toList

/-- `APIResponse.from_exception` (responses.py lines 141-202): the
ValidationError/TokenError name checks, the ValueError/KeyError/
PermissionError isinstance checks, then the `isinstance(exception,
(FileNotFoundError, AttributeError))` branch whose inner name check
yields 404 — anything falling through is a 500. -/
def from_exception (e : PyException) : APIResponseBody :=
  if e.className == "ValidationError" then
    APIResponse.bad_request "유효성 검사에 실패했습니다." e.message
  else if e.className == "TokenError" then
    APIResponse.bad_request "토큰이 유효하지 않거나 만료되었습니다." e.message
  else if e.isValueError then
    APIResponse.bad_request "잘못된 요청입니다." e.message
  else if e.isKeyError then
    APIResponse.bad_request "필수 파라미터가 누락되었습니다." e.message
  else if e.isPermissionError then
    APIResponse.forbidden "권한이 없습니다." e.message
  else if e.isFileNotFoundError || e.isAttributeError then
    if nameHasDoesNotExist e then
      APIResponse.not_found "리소스를 찾을 수 없습니다." e.message
    else
      APIResponse.server_error "서버 오류가 발생했습니다." e.message
  else
    APIResponse.server_error "서버 오류가 발생했습니다." e.message

/-- A business-rule `ValueError` as the services raise it. -/
def valueErrorExc : PyException :=
  { className := "ValueError", message := "이미 가입된 모임입니다.",
    isValueError := true }

/-- An authorization `PermissionError`. -/
def permissionErrorExc : PyException :=
  { className := "PermissionError",
    message := "질문 작성자만 수정/삭제할 수 있습니다.",
    isPermissionError := true }

/-- A Django `Model.DoesNotExist` raised by `objects.get(...)`: class
name `DoesNotExist`, subclass of `Exception` only — not of
`FileNotFoundError` or `AttributeError`. -/
def doesNotExistExc : PyException :=
  { className := "DoesNotExist",
    message := "Gathering matching query does not exist." }

/-- Django's `RelatedObjectDoesNotExist` — the only not-found exception
that also subclasses `AttributeError`. -/
def relatedObjectDoesNotExistExc : PyException :=
  { className := "RelatedObjectDoesNotExist", isAttributeError := true }

/-- An arbitrary unexpected exception. -/
def runtimeErrorExc : PyException := { className := "RuntimeError" }

/-- C8: the central mapping sends ValueError to 400 and PermissionError
to 403 and everything unrecognised to 500, always in the uniform
envelope — but a plain Django `DoesNotExist` (the not-found condition the
claim and the code's own comment promise a 404 for) is not an instance of
`FileNotFoundError` or `AttributeError`, falls through the 404 branch and
is answered with a 500; only `RelatedObjectDoesNotExist` reaches the 404. -/
theorem C8_from_exception_mapping :
    (from_exception valueErrorExc).status_code = 400 ∧
    (from_exception permissionErrorExc).status_code = 403 ∧
    (from_exception runtimeErrorExc).status_code = 500 ∧
    (from_exception relatedObjectDoesNotExistExc).status_code = 404 ∧
    (from_exception doesNotExistExc).status_code = 500 ∧
    (from_exception doesNotExistExc).status_code ≠ 404 := by
  refine ⟨rfl, rfl, rfl, ?_, ?_, ?_⟩ <;> decide

/-- Row of the `questions` table together with the annotated
`answer_count` the views attach
(`Question.objects.annotate(answer_count=Count("answers"))`). -/
structure Question where
  id : Nat
  userId : Nat
  categoryId : Nat
  title : String
  content : String
  answerCount : Nat
deriving DecidableEq, Repr

/-- `QuestionService.can_modify_question` (question_service.py lines
31-45): a question with answers can be neither edited nor deleted. -/
def can_modify_question (q : Question) : Bool := q.answerCount == 0

/-- A PATCH body over the `QuestionUpdateSerializer` fields
(category/title/content, all optional under `partial=True`). -/
structure QuestionPatch where
  categoryId : Option Nat := none
  title : Option String := none
  content : Option String := none
deriving DecidableEq, Repr

/-- `QuestionUpdateSerializer.validate_title`. -/
def validate_title (value : String) : Except String String :=
  if value.trim.length < 5 then .error "제목은 최소 5자 이상이어야 합니다."
  else if value.length > 255 then .error "제목은 최대 255자까지 가능합니다."
  else .ok value.trim

/-- `QuestionUpdateSerializer.validate_content`. -/
def validate_content (value : String) : Except String String :=
  if value.trim.length < 10 then .error "내용은 최소 10자 이상이어야 합니다."
  else .ok value.trim

/-- `QuestionUpdateSerializer.is_valid`: the field validators run first,
then `validate`, which rejects any update to a question whose
`answer_count` is positive. -/
def question_update_is_valid (q : Question) (d : QuestionPatch) :
    Except String QuestionPatch :=
  match (match d.title with
         | none => Except.ok none
         | some t => (validate_title t).map some) with
  | .error e => .error e
  | .ok title =>
    match (match d.content with
           | none => Except.ok none
           | some c => (validate_content c).map some) with
    | .error e => .error e
    | .ok content =>
      if 0 < q.answerCount then .error "답변이 달린 질문은 수정할 수 없습니다."
      else .ok { d with title := title, content := content }

/-- `QuestionDetailView.patch` (question_views.py lines 199-234): lookup,
author check, serializer validation (`raise_exception=True` surfaces a
validation failure as a 400 response), then the field update and save. -/
def question_patch (qs : List Question) (qid uid : Nat) (d : QuestionPatch) :
    APIResponseBody × List Question :=
  match qs.find? (fun q => q.id == qid) with
  | none => (APIResponse.not_found "존재하지 않는 질문입니다." "", qs)
  | some q =>
    if !(q.userId == uid) then
      (APIResponse.forbidden "질문 작성자만 수정/삭제할 수 있습니다." "", qs)
    else
      match question_update_is_valid q d with
      | .error e => (APIResponse.bad_request "유효성 검사에 실패했습니다." e, qs)
      | .ok vd =>
        let q' : Question :=
          { q with categoryId := vd.categoryId.getD q.categoryId,
                   title := vd.title.getD q.title,
                   content := vd.content.getD q.content }
        (APIResponse.success "질문이 수정되었습니다." "", setBy Question.id qs q')

/-- `QuestionDetailView.delete` (question_views.py lines 247-277):
lookup, author check, `can_modify_question` guard, then the delete. -/
def question_delete (qs : List Question) (qid uid : Nat) :
    APIResponseBody × List Question :=
  match qs.find? (fun q => q.id == qid) with
  | none => (APIResponse.not_found "존재하지 않는 질문입니다." "", qs)
  | some q =>
    if !(q.userId == uid) then
      (APIResponse.forbidden "질문 작성자만 수정/삭제할 수 있습니다." "", qs)
    else if !(can_modify_question q) then
      (APIResponse.bad_request "답변이 달린 질문은 삭제할 수 없습니다." "", qs)
    else
      (APIResponse.success "질문이 삭제되었습니다." "",
       qs.filter fun x => !(x.id == q.id))

/-- The update serializer always rejects a question that has answers. -/
theorem question_update_is_valid_error (q : Question) (d : QuestionPatch)
    (h : 0 < q.answerCount) :
    ∃ e, question_update_is_valid q d = .error e := by
  unfold question_update_is_valid
  split
  · exact ⟨_, rfl⟩
  · split
    · exact ⟨_, rfl⟩
    · rw [if_pos h]
      exact ⟨_, rfl⟩

/-- C6: a question with existing answers cannot be edited — for every
question with a positive answer count, the PATCH handler answers 400 and
leaves the question table unchanged (via the update serializer's
`validate`), just as the DELETE handler does (via
`can_modify_question`). -/
theorem C6_answered_question_update_fails (qs : List Question)
    (qid uid : Nat) (d : QuestionPatch) (q : Question)
    (hq : qs.find? (fun x => x.id == qid) = some q)
    (howner : q.userId = uid)
    (hans : 0 < q.answerCount) :
    (question_patch qs qid uid d).1.status_code = 400 ∧
    (question_patch qs qid uid d).2 = qs ∧
    (question_delete qs qid uid).1.status_code = 400 ∧
    (question_delete qs qid uid).2 = qs := by
  obtain ⟨e, he⟩ := question_update_is_valid_error q d hans
  have hpatch : question_patch qs qid uid d =
      (APIResponse.bad_request "유효성 검사에 실패했습니다." e, qs) := by
    unfold question_patch
    simp only [hq]
    rw [if_neg (by rw [howner]; simp), he]
  have hdel : question_delete qs qid uid =
      (APIResponse.bad_request "답변이 달린 질문은 삭제할 수 없습니다." "", qs) := by
    unfold question_delete
    simp only [hq]
    rw [if_neg (by rw [howner]; simp)]
    rw [if_pos (by simp [can_modify_question]; omega)]
  rw [hpatch, hdel]
  exact ⟨rfl, rfl, rfl, rfl⟩

/-- A question that already has one answer. -/
def qC6 : Question :=
  { id := 1, userId := 1, categoryId := 1, title := "질문 제목입니다",
    content := "질문 내용입니다 열 글자", answerCount := 1 }

theorem C6_answered_question_update_fails_witness :
    (question_patch [qC6] 1 1 {}).1.status_code = 400 ∧
    (question_patch [qC6] 1 1 {}).2 = [qC6] ∧
    (question_delete [qC6] 1 1).1.status_code = 400 ∧
    (question_delete [qC6] 1 1).2 = [qC6] :=
  C6_answered_question_update_fails [qC6] 1 1 {} qC6 (by decide) rfl
    (by decide)

/-- `django.utils.html.escape`: the per-character translation of the five
HTML-special characters. -/
def escapeChar (c : Char) : List Char :=
  if c = '&' then "&amp;".toList
  else if c = '<' then "&lt;".toList
  else if c = '>' then "&gt;".toList
  else if c = Char.ofNat 34 then "&quot;".toList
  else if c = Char.ofNat 39 then "&#x27;".toList
  else [c]

/-- `django.utils.html.escape` over a whole string. -/
def escape (s : String) : String := String.mk (s.toList.flatMap escapeChar)

/-- One persisted `chat_messages` row (apps/chat/models.py), restricted
to the fields the consumer writes. -/
structure ChatMessage where
  gatheringId : Nat
  userId : Nat
  message : String
deriving DecidableEq, Repr

/-- The observable effects of one `ChatConsumer.receive` call, in
execution order: the database write, the group broadcast of the
serialized message, and the error frame sent back on this socket. -/
inductive ChatEvent
  | persistMsg (m : ChatMessage)
  | groupSend (m : ChatMessage)
  | sendError (s : String)
deriving DecidableEq, Repr

/-- `ChatConsumer.check_rate_limit` (consumers.py lines 212-237): drop
timestamps older than the 10-second window, refuse at 5 recorded sends,
otherwise record `now`. `time.time()` is modelled with natural-number
seconds. -/
def check_rate_limit (times : List Nat) (now : Nat) : Bool × List Nat :=
  let kept := times.filter fun t => now - t < 10
  if 5 ≤ kept.length then (false, kept)
  else (true, kept ++ [now])

/-- `ChatConsumer.save_message` (consumers.py lines 170-197): a missing
gathering or an empty message raises; otherwise the row is created. -/
def save_message (gatheringExists : Bool) (gid uid : Nat)
    (text : Option String) : Except String ChatMessage :=
  if !gatheringExists then .error "존재하지 않는 모임입니다."
  else
    match text with
    | none => .error "메시지 내용을 입력해주세요."
    | some t =>
      if t == "" then .error "메시지 내용을 입력해주세요."
      else .ok { gatheringId := gid, userId := uid, message := t }

/-- `if message_text: message_text = escape(message_text)` — escape only
a truthy payload. -/
def escapeIncoming : Option String → Option String
  | some t => if t == "" then some t else some (escape t)
  | none => none

/-- `ChatConsumer.receive` (consumers.py lines 96-134): rate-limit first
(the refusal answers with an error frame and touches nothing else), then
escape, persist, and only after the persist broadcast to the group; the
surrounding `except` answers any failure with an error frame. -/
def receive (times : List Nat) (now : Nat) (gatheringExists : Bool)
    (gid uid : Nat) (text : Option String) : List Nat × List ChatEvent :=
  match check_rate_limit times now with
  | (false, kept) =>
    (kept, [.sendError "메시지 전송 속도 제한을 초과했습니다. 잠시 후 다시 시도해주세요."])
  | (true, kept) =>
    match save_message gatheringExists gid uid (escapeIncoming text) with
    | .error _ => (kept, [.sendError "메시지 전송에 실패했습니다."])
    | .ok m => (kept, [.persistMsg m, .groupSend m])

/-- Every `receive` produces either a single error frame or a persist
followed by the broadcast of the same message. -/
theorem receive_shape (times : List Nat) (now : Nat) (ge : Bool)
    (gid uid : Nat) (text : Option String) :
    (∃ s, (receive times now ge gid uid text).2 = [ChatEvent.sendError s]) ∨
    (∃ m, (receive times now ge gid uid text).2 =
      [ChatEvent.persistMsg m, ChatEvent.groupSend m]) := by
  unfold receive
  split
  · exact Or.inl ⟨_, rfl⟩
  · split
    · exact Or.inl ⟨_, rfl⟩
    · exact Or.inr ⟨_, rfl⟩

/-- C9: a sender with 5 recorded messages inside the 10-second window is
answered with an error frame and nothing is persisted; a broadcast
happens only as the second event after the persist of the same message;
an error frame excludes both persist and broadcast; a missing or empty
message always yields an error frame. -/
theorem C9_receive_spec (times : List Nat) (now : Nat) (ge : Bool)
    (gid uid : Nat) (text : Option String) :
    (5 ≤ (times.filter fun t => now - t < 10).length →
      (receive times now ge gid uid text).2 =
        [ChatEvent.sendError
          "메시지 전송 속도 제한을 초과했습니다. 잠시 후 다시 시도해주세요."]) ∧
    (∀ m, ChatEvent.groupSend m ∈ (receive times now ge gid uid text).2 →
      (receive times now ge gid uid text).2 =
        [ChatEvent.persistMsg m, ChatEvent.groupSend m]) ∧
    (∀ s, ChatEvent.sendError s ∈ (receive times now ge gid uid text).2 →
      (receive times now ge gid uid text).2 = [ChatEvent.sendError s]) ∧
    ((text = none ∨ text = some "") →
      ∃ s, (receive times now ge gid uid text).2 = [ChatEvent.sendError s]) := by
  refine ⟨?_, ?_, ?_, ?_⟩
  · intro hrl
    have hcrl : check_rate_limit times now =
        (false, times.filter fun t => now - t < 10) := by
      unfold check_rate_limit
      rw [if_pos hrl]
    unfold receive
    rw [hcrl]
  · intro m hm
    rcases receive_shape times now ge gid uid text with ⟨s, hs⟩ | ⟨m2, hm2⟩
    · rw [hs] at hm
      simp at hm
    · rw [hm2] at hm
      simp at hm
      rw [hm2, hm]
  · intro s hs
    rcases receive_shape times now ge gid uid text with ⟨s2, hs2⟩ | ⟨m2, hm2⟩
    · rw [hs2] at hs
      simp at hs
      rw [hs2, hs]
    · rw [hm2] at hs
      simp at hs
  · intro htext
    by_cases hrl : 5 ≤ (times.filter fun t => now - t < 10).length
    · have hcrl : check_rate_limit times now =
          (false, times.filter fun t => now - t < 10) := by
        unfold check_rate_limit
        rw [if_pos hrl]
      unfold receive
      rw [hcrl]
      exact ⟨_, rfl⟩
    · have hcrl : check_rate_limit times now =
          (true, (times.filter fun t => now - t < 10) ++ [now]) := by
        unfold check_rate_limit
        rw [if_neg hrl]
      unfold receive
      rw [hcrl]
      rcases htext with rfl | rfl <;> cases ge <;> exact ⟨_, rfl⟩

theorem C9_receive_spec_witness :
    (receive [0, 1, 2, 3, 4] 5 true 1 1 (some "hi")).2 =
      [ChatEvent.sendError
        "메시지 전송 속도 제한을 초과했습니다. 잠시 후 다시 시도해주세요."] :=
  (C9_receive_spec [0, 1, 2, 3, 4] 5 true 1 1 (some "hi")).1 (by decide)

end GatherGrow
